import Mathlib

/-!
Verification of the copy-step core of a daemonless container-image builder
(`pkg/commands/copy.go` plus the cache/scanner test file shipped with it).

Shallow embedding conventions used throughout this file:

* An absolute filesystem path is its list of name components (`FPath`);
  the empty list is the root `/`.  Components are plain names (no `/`,
  no `.` or `..`), which is the canonical form `filepath.Clean` produces,
  so `filepath.Clean`, `filepath.Join` and `filepath.Split` become list
  append and structural splitting on this representation.
* A path that may be relative (Go strings fed to `filepath.IsAbs`) is a
  `GoPath`: an absoluteness flag plus components.
* The filesystem visible to `os.Lstat` / `filepath.EvalSymlinks` is a
  finite association list from absolute paths to nodes (`FS`).  Symlink
  chains are resolved with explicit fuel; fuel is consumed only when a
  symlink is followed, mirroring the kernel's ELOOP bound.
* Fallible Go functions become `Except`-valued Lean functions; the
  `errors.Wrap(err, msg)` calls of the source become the `CopyErr.wrap`
  constructor so the error structure of the source is preserved.
* External collaborators (`util.*`, the registry client, the variable
  substitution service) are abstract function parameters collected in
  records, exactly at the interfaces the source calls them.
-/

/-- An absolute path, as its (already cleaned) list of name components.
`[]` is the filesystem root `/`. -/
abbrev FPath := List String

/-- A possibly-relative path as Go manipulates it: `filepath.IsAbs` flag
plus cleaned components. -/
structure GoPath where
  isAbs : Bool
  comps : List String
deriving DecidableEq

/-- A filesystem node as distinguished by `os.FileInfo`:
`fi.IsDir()`, `util.IsSymlink(fi)`, or a regular file.
A symlink stores its (absolute) target path. -/
inductive FNode
  | file
  | dir
  | symlink (target : FPath)
deriving DecidableEq

/-- The filesystem: a finite map from absolute paths to nodes. -/
abbrev FS := List (FPath × FNode)

/-- Look a path up in the filesystem map (first matching entry). -/
def lookupFS (fs : FS) (p : FPath) : Option FNode :=
  match fs with
  | [] => none
  | (q, n) :: rest => if q = p then some n else lookupFS rest p

/-- Error kinds a path lookup can produce, mirroring the `errno` values
that the Go code distinguishes: `ENOENT` (for which `os.IsNotExist` is
true), `ENOTDIR` (an intermediate component is a regular file), and
`ELOOP` (too many symlink hops). -/
inductive FsErr
  | notExist
  | notDir
  | tooManyLinks
deriving DecidableEq

/-- One symlink-free traversal pass: walk `todo` starting from the
already-resolved directory `acc`.  `onSym` says what happens when a
symlink component is encountered (restart on the rewritten remaining
path with one less unit of fuel, or fail when fuel is exhausted). -/
def resolveCompsGo (fs : FS) (onSym : FPath → Except FsErr FPath) :
    FPath → FPath → Except FsErr FPath
  | acc, [] => .ok acc
  | acc, c :: rest =>
    match lookupFS fs (acc ++ [c]) with
    | none => .error .notExist
    | some .file => if rest = [] then .ok (acc ++ [c]) else .error .notDir
    | some .dir => resolveCompsGo fs onSym (acc ++ [c]) rest
    | some (.symlink t) => onSym (t ++ rest)

/-- Walk `todo` starting from the already-resolved directory `acc`,
following symlinks in every component.  This is the semantics of path
traversal used both by `filepath.EvalSymlinks` and by the intermediate
components of `os.Lstat`.  `fuel` bounds the number of symlink hops
(only a symlink hop consumes fuel, mirroring the kernel's ELOOP
counter). -/
def resolveComps (fs : FS) : Nat → FPath → FPath → Except FsErr FPath
  | 0, acc, todo => resolveCompsGo fs (fun _ => .error .tooManyLinks) acc todo
  | fuel + 1, acc, todo => resolveCompsGo fs (fun p => resolveComps fs fuel [] p) acc todo

/-- Model of `filepath.EvalSymlinks`: fully resolve every symlink in
every component; fails if any component does not exist. -/
def evalSymlinks (fs : FS) (fuel : Nat) (p : FPath) : Except FsErr FPath :=
  resolveComps fs fuel [] p

/-- Model of `os.Lstat`: resolve the parent chain following symlinks,
then look the final component up without following a trailing symlink.
The root `/` always exists and is a directory. -/
def lstatFS (fs : FS) (fuel : Nat) (p : FPath) : Except FsErr FNode :=
  match p.reverse with
  | [] => .ok .dir
  | leaf :: parentRev =>
    match resolveComps fs fuel [] parentRev.reverse with
    | .error e => .error e
    | .ok d =>
      match lookupFS fs (d ++ [leaf]) with
      | none => .error .notExist
      | some n => .ok n

/-- Errors of the copy step.  `msg` is `errors.New`, `osErr` embeds a raw
filesystem error, `extMsg` is an error produced by an external utility,
and `wrap` is `errors.Wrap(err, context)`. -/
inductive CopyErr
  | msg (s : String)
  | osErr (e : FsErr)
  | extMsg (s : String)
  | wrap (context : String) (e : CopyErr)
deriving DecidableEq

instance {ε α : Type} [DecidableEq ε] [DecidableEq α] : DecidableEq (Except ε α) := fun x y =>
  match x, y with
  | .error a, .error b =>
    if h : a = b then isTrue (by rw [h]) else isFalse (fun hc => by cases hc; exact h rfl)
  | .error _, .ok _ => isFalse (fun hc => by cases hc)
  | .ok _, .error _ => isFalse (fun hc => by cases hc)
  | .ok a, .ok b =>
    if h : a = b then isTrue (by rw [h]) else isFalse (fun hc => by cases hc; exact h rfl)

/-- The upward walk of `resolveIfSymlink` (`copy.go` lines 279-301),
operating on the reversed component list of the current path so that the
recursion strips the deepest component first.  `pending` holds the
non-existent leaf names recorded so far, shallowest first, so that
`newPath ++ pending` is the `filepath.Join` rebuild of the source
(which iterates `nonexistentPaths` in reverse recording order). -/
def risLoop (fs : FS) (fuel : Nat) : List String → List String → Except CopyErr FPath
  | [], pending => .ok pending
  | c :: restRev, pending =>
    match lstatFS fs fuel ((c :: restRev).reverse) with
    | .error FsErr.notExist => risLoop fs fuel restRev (c :: pending)
    | .error e => .error (CopyErr.wrap "failed to lstat" (CopyErr.osErr e))
    | .ok _ =>
      match evalSymlinks fs fuel ((c :: restRev).reverse) with
      | .error e => .error (CopyErr.wrap "failed to eval symlinks" (CopyErr.osErr e))
      | .ok rp => .ok (rp ++ pending)

/-- Model of `resolveIfSymlink` (`copy.go` lines 271-308).  On the
canonical component representation the final `filepath.Clean` is the
identity, so the rebuilt path is returned as-is. -/
def resolveIfSymlink (fs : FS) (fuel : Nat) (destPath : GoPath) : Except CopyErr GoPath :=
  if destPath.isAbs = false then .error (CopyErr.msg "dest path must be abs")
  else
    match risLoop fs fuel destPath.comps.reverse [] with
    | .error e => .error e
    | .ok p => .ok ⟨true, p⟩

/-- C7: `resolveIfSymlink` applied to any non-absolute input path fails
immediately with the `dest path must be abs` error; the result is the
same for every filesystem and every fuel bound, so the filesystem is
never queried. -/
theorem resolveIfSymlink_rejects_relative (fs : FS) (fuel : Nat) (comps : List String) :
    resolveIfSymlink fs fuel ⟨false, comps⟩ = .error (CopyErr.msg "dest path must be abs") := rfl

/-- Decidable check: the node at `q`, if any, is a directory.  A path all
of whose existing ancestors satisfy this has no symlink (and no regular
file) blocking or redirecting traversal. -/
def isDirOrAbsent (fs : FS) (q : FPath) : Bool :=
  match lookupFS fs q with
  | none => true
  | some FNode.dir => true
  | some _ => false

/-- Decidable check: the node at `q`, if any, is not a symlink. -/
def noSymlinkAt (fs : FS) (q : FPath) : Bool :=
  match lookupFS fs q with
  | some (FNode.symlink _) => false
  | _ => true

/-- Traversal over a chain whose existing members are all directories
either reaches the end unchanged (and then every member on the chain is
a present directory) or stops with `ENOENT`; it never follows a symlink
and never produces another error. -/
theorem resolveCompsGo_dirOrAbsent (fs : FS) (onSym : FPath → Except FsErr FPath) :
    ∀ todo acc,
    (∀ k, k < todo.length → isDirOrAbsent fs (acc ++ todo.take (k + 1)) = true) →
    (resolveCompsGo fs onSym acc todo = .ok (acc ++ todo)
        ∧ ∀ k, k < todo.length → lookupFS fs (acc ++ todo.take (k + 1)) = some FNode.dir)
      ∨ resolveCompsGo fs onSym acc todo = .error FsErr.notExist := by
  intro todo
  induction todo with
  | nil =>
    intro acc _
    left
    refine ⟨by simp [resolveCompsGo], ?_⟩
    intro k hk
    simp at hk
  | cons c rest ih =>
    intro acc h
    have h0 : isDirOrAbsent fs (acc ++ [c]) = true := by simpa using h 0 (by simp)
    cases hl : lookupFS fs (acc ++ [c]) with
    | none =>
      right
      simp [resolveCompsGo, hl]
    | some n =>
      cases n with
      | file => rw [isDirOrAbsent, hl] at h0; simp at h0
      | symlink t => rw [isDirOrAbsent, hl] at h0; simp at h0
      | dir =>
        have hshift : ∀ k, k < rest.length →
            isDirOrAbsent fs ((acc ++ [c]) ++ rest.take (k + 1)) = true := by
          intro k hk
          have := h (k + 1) (by simpa using Nat.succ_lt_succ hk)
          simpa [List.append_assoc] using this
        rcases ih (acc ++ [c]) hshift with ⟨hok, hdirs⟩ | herr
        · left
          constructor
          · have step : resolveCompsGo fs onSym acc (c :: rest)
                = resolveCompsGo fs onSym (acc ++ [c]) rest := by
              simp [resolveCompsGo, hl]
            rw [step, hok]
            simp
          · intro k hk
            cases k with
            | zero => simpa using hl
            | succ k2 =>
              have hk2 : k2 < rest.length := by simp at hk; omega
              have := hdirs k2 hk2
              simpa [List.append_assoc] using this
        · right
          have step : resolveCompsGo fs onSym acc (c :: rest)
              = resolveCompsGo fs onSym (acc ++ [c]) rest := by
            simp [resolveCompsGo, hl]
          rw [step, herr]

/-- Lift of the directory-walk characterization to `resolveComps`: since
no symlink is followed, the amount of fuel is irrelevant. -/
theorem resolveComps_dirOrAbsent (fs : FS) (fuel : Nat) :
    ∀ todo acc,
    (∀ k, k < todo.length → isDirOrAbsent fs (acc ++ todo.take (k + 1)) = true) →
    (resolveComps fs fuel acc todo = .ok (acc ++ todo)
        ∧ ∀ k, k < todo.length → lookupFS fs (acc ++ todo.take (k + 1)) = some FNode.dir)
      ∨ resolveComps fs fuel acc todo = .error FsErr.notExist := by
  intro todo acc h
  cases fuel with
  | zero => exact resolveCompsGo_dirOrAbsent fs _ todo acc h
  | succ f => exact resolveCompsGo_dirOrAbsent fs _ todo acc h

/-- Traversal over a chain whose strict members are present directories
and whose endpoint is present and not a symlink succeeds and returns the
chain unchanged. -/
theorem resolveCompsGo_ok_of_chain (fs : FS) (onSym : FPath → Except FsErr FPath) :
    ∀ todo acc, todo ≠ [] →
    (∀ k, k + 1 < todo.length → lookupFS fs (acc ++ todo.take (k + 1)) = some FNode.dir) →
    (∀ n, lookupFS fs (acc ++ todo) = some n → n = FNode.dir ∨ n = FNode.file) →
    (∃ n, lookupFS fs (acc ++ todo) = some n) →
    resolveCompsGo fs onSym acc todo = .ok (acc ++ todo) := by
  intro todo
  induction todo with
  | nil => intro acc h; exact absurd rfl h
  | cons c rest ih =>
    intro acc _ hmid hfin hex
    obtain ⟨n, hn⟩ := hex
    cases rest with
    | nil =>
      rcases hfin n hn with rfl | rfl
      · simp [resolveCompsGo, hn]
      · simp [resolveCompsGo, hn]
    | cons d rest2 =>
      have h0 : lookupFS fs (acc ++ [c]) = some FNode.dir := by
        simpa using hmid 0 (by simp)
      have step : resolveCompsGo fs onSym acc (c :: d :: rest2)
          = resolveCompsGo fs onSym (acc ++ [c]) (d :: rest2) := by
        simp [resolveCompsGo, h0]
      rw [step]
      have hres := ih (acc ++ [c]) (by simp)
        (by
          intro k hk
          have := hmid (k + 1) (by simpa using Nat.succ_lt_succ hk)
          simpa [List.append_assoc] using this)
        (by
          intro m hm
          exact hfin m (by simpa [List.append_assoc] using hm))
        ⟨n, by simpa [List.append_assoc] using hn⟩
      rw [hres]
      simp

/-- Lift of the clean-chain traversal to `resolveComps`. -/
theorem resolveComps_ok_of_chain (fs : FS) (fuel : Nat) :
    ∀ todo acc, todo ≠ [] →
    (∀ k, k + 1 < todo.length → lookupFS fs (acc ++ todo.take (k + 1)) = some FNode.dir) →
    (∀ n, lookupFS fs (acc ++ todo) = some n → n = FNode.dir ∨ n = FNode.file) →
    (∃ n, lookupFS fs (acc ++ todo) = some n) →
    resolveComps fs fuel acc todo = .ok (acc ++ todo) := by
  intro todo acc hne hmid hfin hex
  cases fuel with
  | zero => exact resolveCompsGo_ok_of_chain fs _ todo acc hne hmid hfin hex
  | succ f => exact resolveCompsGo_ok_of_chain fs _ todo acc hne hmid hfin hex

/-- The upward walk of the resolver, on a destination whose existing
ancestors (the walked chain included) hold no symlink: every visited
prefix either strips off as non-existent or resolves to itself, so the
rebuilt path is the input itself. -/
theorem risLoop_no_symlinks (fs : FS) (fuel : Nat) (comps : List String)
    (hanc : ∀ q, q <+: comps → q ≠ comps → isDirOrAbsent fs q = true)
    (hleaf : noSymlinkAt fs comps = true) :
    ∀ rev pending, rev.reverse ++ pending = comps →
    risLoop fs fuel rev pending = .ok comps := by
  intro rev
  induction rev with
  | nil =>
    intro pending h
    simp only [risLoop]
    exact congrArg Except.ok (by simpa using h)
  | cons c rest ih =>
    intro pending hinv
    have hpeq : (c :: rest).reverse = rest.reverse ++ [c] := by simp
    have hpcomps : (rest.reverse ++ [c]) ++ pending = comps := by
      rw [← hpeq]; exact hinv
    have hppre : (rest.reverse ++ [c]) <+: comps := ⟨pending, hpcomps⟩
    have hlens : rest.reverse.length + 1 + pending.length = comps.length := by
      rw [← hpcomps]
      simp only [List.length_append, List.length_reverse, List.length_cons, List.length_nil]
    -- every non-empty prefix of the parent chain is a short proper prefix of comps
    have hparent : ∀ k, k < rest.reverse.length →
        isDirOrAbsent fs ([] ++ rest.reverse.take (k + 1)) = true := by
      intro k hk
      have hq1 : rest.reverse.take (k + 1) <+: rest.reverse := List.take_prefix _ _
      have hq2 : rest.reverse <+: comps :=
        List.IsPrefix.trans ⟨[c], rfl⟩ hppre
      have hqlen : (rest.reverse.take (k + 1)).length ≤ rest.reverse.length :=
        hq1.length_le
      have hqne : rest.reverse.take (k + 1) ≠ comps := by
        intro hcontra
        have := congrArg List.length hcontra
        simp at this
        omega
      simpa using hanc _ (hq1.trans hq2) hqne
    have hlstat0 : lstatFS fs fuel ((c :: rest).reverse)
        = (match resolveComps fs fuel [] rest.reverse with
           | .error e => .error e
           | .ok d =>
             match lookupFS fs (d ++ [c]) with
             | none => .error FsErr.notExist
             | some n => .ok n) := by
      simp only [lstatFS, List.reverse_reverse]
    rcases resolveComps_dirOrAbsent fs fuel rest.reverse [] hparent with ⟨hok, hdirs⟩ | herr
    · rw [List.nil_append] at hok
      cases hlook : lookupFS fs (rest.reverse ++ [c]) with
      | none =>
        have hls : lstatFS fs fuel ((c :: rest).reverse) = .error FsErr.notExist := by
          simp only [hlstat0, hok, hlook]
        simp only [risLoop, hls]
        apply ih
        rw [← hinv]
        simp
      | some n =>
        have hls : lstatFS fs fuel ((c :: rest).reverse) = .ok n := by
          simp only [hlstat0, hok, hlook]
        -- the visited prefix itself is present and not a symlink, so it
        -- fully resolves to itself
        have hnotsym : n = FNode.dir ∨ n = FNode.file := by
          by_cases hpc : rest.reverse ++ [c] = comps
          · have hl2 : noSymlinkAt fs (rest.reverse ++ [c]) = true := by
              rw [hpc]; exact hleaf
            rw [noSymlinkAt, hlook] at hl2
            cases n with
            | file => right; rfl
            | dir => left; rfl
            | symlink t => simp at hl2
          · have hda := hanc _ hppre hpc
            rw [isDirOrAbsent, hlook] at hda
            cases n with
            | file => simp at hda
            | dir => left; rfl
            | symlink t => simp at hda
        have heval : evalSymlinks fs fuel ((c :: rest).reverse)
            = .ok (rest.reverse ++ [c]) := by
          rw [evalSymlinks, hpeq]
          have := resolveComps_ok_of_chain fs fuel (rest.reverse ++ [c]) []
            (by simp)
            (by
              intro k hk
              have hk2 : k + 1 ≤ rest.reverse.length := by
                simp only [List.length_append, List.length_reverse, List.length_cons, List.length_nil] at hk ⊢
                omega
              rw [List.nil_append, List.take_append_of_le_length hk2]
              exact hdirs k (by omega))
            (by
              intro m hm
              rw [List.nil_append, hlook] at hm
              cases hm
              exact hnotsym)
            ⟨n, by simpa using hlook⟩
          simpa using this
        simp only [risLoop, hls, heval]
        rw [hpcomps]
    · have hls : lstatFS fs fuel ((c :: rest).reverse) = .error FsErr.notExist := by
        simp only [hlstat0, herr]
      simp only [risLoop, hls]
      apply ih
      rw [← hinv]
      simp

/-- C6: on an absolute destination path whose existing components (all
along the walked ancestor chain) are plain directories, with the leaf
itself not a symlink, `resolveIfSymlink` returns the input unchanged
(normalization is the identity on the canonical representation). -/
theorem resolveIfSymlink_no_symlinks (fs : FS) (fuel : Nat) (comps : List String)
    (hanc : ∀ q ∈ comps.inits, q ≠ comps → isDirOrAbsent fs q = true)
    (hleaf : noSymlinkAt fs comps = true) :
    resolveIfSymlink fs fuel ⟨true, comps⟩ = .ok ⟨true, comps⟩ := by
  have hanc2 : ∀ q, q <+: comps → q ≠ comps → isDirOrAbsent fs q = true :=
    fun q hq => hanc q ((List.mem_inits q comps).mpr hq)
  have hloop := risLoop_no_symlinks fs fuel comps hanc2 hleaf comps.reverse [] (by simp)
  simp [resolveIfSymlink, hloop]

/-- Concrete filesystem for the C6 witness: `/a` and `/a/b` are real
directories, `/a/b/c` does not exist yet. -/
def fsC6W : FS := [(["a"], FNode.dir), (["a", "b"], FNode.dir)]

/-- C6 witness: `/a/b/c` over a symlink-free tree resolves to itself. -/
theorem resolveIfSymlink_no_symlinks_witness :
    resolveIfSymlink fsC6W 5 ⟨true, ["a", "b", "c"]⟩ = .ok ⟨true, ["a", "b", "c"]⟩ :=
  resolveIfSymlink_no_symlinks fsC6W 5 ["a", "b", "c"] (by decide) (by decide)

/-- Stripping phase of the walk: as long as every path strictly below
`p0` (i.e. `p0` extended by a non-empty piece of `t`) does not exist,
the loop peels those leaf names off onto the pending stack, in order. -/
theorem risLoop_strip (fs : FS) (fuel : Nat) (p0 : FPath) :
    ∀ t : List String, ∀ pending,
    (∀ k, k < t.length → lstatFS fs fuel (p0 ++ t.take (k + 1)) = .error FsErr.notExist) →
    risLoop fs fuel (p0 ++ t).reverse pending = risLoop fs fuel p0.reverse (t ++ pending) := by
  intro t
  induction t using List.reverseRecOn with
  | nil =>
    intro pending _
    simp
  | append_singleton ts c ih =>
    intro pending h
    have hlast : lstatFS fs fuel (p0 ++ (ts ++ [c])) = .error FsErr.notExist := by
      have hfull := h ts.length (by simp)
      have htake : (ts ++ [c]).take (ts.length + 1) = ts ++ [c] :=
        List.take_of_length_le (by simp)
      rwa [htake] at hfull
    have hrw : (p0 ++ (ts ++ [c])).reverse = c :: (p0 ++ ts).reverse := by simp
    rw [hrw]
    have hscr : ((c :: (p0 ++ ts).reverse).reverse) = p0 ++ (ts ++ [c]) := by simp
    have hstep : risLoop fs fuel (c :: (p0 ++ ts).reverse) pending
        = risLoop fs fuel (p0 ++ ts).reverse (c :: pending) := by
      simp only [risLoop, hscr, hlast]
    rw [hstep]
    rw [ih (c :: pending) (by
      intro k hk
      have hk2 : k + 1 ≤ ts.length := by omega
      have := h k (by simp only [List.length_append, List.length_cons, List.length_nil]; omega)
      rwa [List.take_append_of_le_length hk2] at this)]
    rw [List.append_cons ts c pending]

/-- C1: for an absolute destination path `p0 ++ tailC` whose existing
ancestor chain ends at `p0` (every strictly longer prefix does not
exist), where some non-empty ancestor of `p0` is a symlink, the
resolver returns the full resolution `rp` of `p0` (the real location of
the symlink's directory target, resolved through every symlink in the
chain) with the non-existent trailing components appended verbatim, in
their original order, already in normalized form. -/
theorem resolveIfSymlink_symlink_ancestor (fs : FS) (fuel : Nat) (p0 tailC rp : FPath)
    (hsym : ∃ q t, q <+: p0 ∧ q ≠ [] ∧ lookupFS fs q = some (FNode.symlink t))
    (hexist : ∃ n, lstatFS fs fuel p0 = .ok n)
    (htail : ∀ k, k < tailC.length → lstatFS fs fuel (p0 ++ tailC.take (k + 1)) = .error FsErr.notExist)
    (heval : evalSymlinks fs fuel p0 = .ok rp) :
    resolveIfSymlink fs fuel ⟨true, p0 ++ tailC⟩ = .ok ⟨true, rp ++ tailC⟩ := by
  obtain ⟨q, t, hq, hqne, -⟩ := hsym
  have hp0 : p0 ≠ [] := by
    rintro rfl
    exact hqne (List.prefix_nil.mp hq)
  obtain ⟨c, rest, hrev⟩ : ∃ c rest, p0.reverse = c :: rest := by
    cases hpr : p0.reverse with
    | nil => exact absurd (by simpa using congrArg List.reverse hpr) hp0
    | cons c rest => exact ⟨c, rest, rfl⟩
  obtain ⟨n, hn⟩ := hexist
  have hcr : (c :: rest).reverse = p0 := by rw [← hrev, List.reverse_reverse]
  have hloop : risLoop fs fuel (p0 ++ tailC).reverse [] = .ok (rp ++ tailC) := by
    rw [risLoop_strip fs fuel p0 tailC [] htail, hrev]
    have hn2 : lstatFS fs fuel ((c :: rest).reverse) = .ok n := by rw [hcr]; exact hn
    have hev2 : evalSymlinks fs fuel ((c :: rest).reverse) = .ok rp := by
      rw [hcr]; exact heval
    simp only [risLoop, hn2, hev2, List.append_nil]
  have hred : resolveIfSymlink fs fuel ⟨true, p0 ++ tailC⟩
      = (match risLoop fs fuel (p0 ++ tailC).reverse [] with
         | .error e => .error e
         | .ok p => .ok (⟨true, p⟩ : GoPath)) := rfl
  rw [hred, hloop]

/-- Concrete filesystem for the C1 witness: `/a` is a symlink to the
real directory `/d`; `/a/b` and `/a/b/c` do not exist. -/
def fsC1W : FS := [(["a"], FNode.symlink ["d"]), (["d"], FNode.dir)]

/-- C1 witness: destination `/a/b/c` behind the symlinked ancestor `/a`
resolves to `/d/b/c`, the non-existent tail `b/c` appended in order. -/
theorem resolveIfSymlink_symlink_ancestor_witness :
    resolveIfSymlink fsC1W 8 ⟨true, ["a", "b", "c"]⟩ = .ok ⟨true, ["d", "b", "c"]⟩ :=
  resolveIfSymlink_symlink_ancestor fsC1W 8 ["a"] ["b", "c"] ["d"]
    ⟨["a"], ["d"], List.prefix_refl _, by decide, by decide⟩
    ⟨FNode.symlink ["d"], by decide⟩
    (by decide)
    (by decide)

/-- A heredoc source entry (`instructions.SourceContent`): the target
path declared in the instruction and the literal inline data. -/
structure SourceContent where
  path : List String
  data : String
deriving DecidableEq

/-- The parsed copy instruction (`instructions.CopyCommand`), with the
fields the executor consumes: the raw source/destination patterns
(handed as a whole to `ResolveEnvAndWildcards`), the heredoc entries,
and the `from`/`chown`/`chmod` options. -/
structure CopyCmd where
  sourcesAndDest : List String
  sourceContents : List SourceContent
  fromStage : String
  chown : Option String
  chmod : Option String
deriving DecidableEq

/-- The slice of `v1.Config` the executor reads: environment, configured
default user, working directory (`""` when unset). -/
structure ImageConfig where
  env : List String
  user : String
  workingDir : String
deriving DecidableEq

/-- `fi.IsDir()`. -/
def FNode.isDir : FNode → Bool
  | .dir => true
  | _ => false

/-- Model of the external utilities the executor calls (`util.*` plus
the swappable `getUserGroup`/`getActiveUserGroup` seams), with exactly
the data flow of the call sites in the source. -/
structure CopyUtils where
  getUserGroup : Option String → List String → Except CopyErr (Int × Int)
  getActiveUserGroup : String → Option String → List String → Except CopyErr (Int × Int)
  resolveEnvAndWildcards : List String → FPath → List String → Except CopyErr (List FPath × String)
  getChmod : Option String → List String → Except CopyErr (Nat × Bool)
  destinationFilepath : FPath → Bool → String → String → Except CopyErr GoPath
  copyDir : FPath → GoPath → FPath → Int → Int → Nat → Bool → Except CopyErr (List GoPath)
  copySymlink : FPath → GoPath → FPath → Except CopyErr Bool
  copyFile : FPath → GoPath → FPath → Int → Int → Nat → Bool → Except CopyErr Bool
  createFile : GoPath → String → Nat → Nat → Nat → Except CopyErr Unit

/-- Model of the `kConfig.KanikoInterStageDepsDir` constant. -/
def interStageDepsDir : FPath := ["kaniko", "stages"]

/-- Model of the `kConfig.RootDir` constant as the working-directory
string used when the image configuration leaves it unset. -/
def rootDirString : String := "/"

/-- Go's `uint32(x)` conversion of an `int64` value (used on the
uid/gid handed to `CreateFile`). -/
def uint32Of (x : Int) : Nat := (x % (4294967296 : Int)).toNat

/-- Trace of the externally visible copy operations one execution
performs, in order. -/
inductive CopyOp
  | copiedDir (src : FPath) (dst : GoPath)
  | copiedSymlink (src : FPath) (dst : GoPath)
  | copiedFile (src : FPath) (dst : GoPath)
  | createdFile (dst : GoPath) (data : String)
deriving DecidableEq

/-- Ownership resolution at the top of `ExecuteCommand` (`copy.go`
lines 51-73): with a non-empty `from` the chown spec is resolved by
`getUserGroup` against the replacement environment only; otherwise by
`getActiveUserGroup` against the image's configured user, which the
`FF_KANIKO_COPY_AS_ROOT` policy flag replaces by `0:0` first. -/
def resolveCopyOwnership (u : CopyUtils) (copyAsRoot : Bool) (fromStage : String)
    (user : String) (chown : Option String) (envs : List String) :
    Except CopyErr (Int × Int) :=
  if fromStage ≠ "" then
    match u.getUserGroup chown envs with
    | .error e => .error (CopyErr.wrap "getting user group from chown" e)
    | .ok ug => .ok ug
  else
    let effUser := if copyAsRoot then "0:0" else user
    match u.getActiveUserGroup effUser chown envs with
    | .error e => .error (CopyErr.wrap "getting user group from chown" e)
    | .ok ug => .ok ug

/-- Per-source body of the copy loop (`copy.go` lines 87-141): lstat the
source, mark directories for trailing-separator treatment, compute the
destination, resolve it through the symlink-safe resolver, and dispatch
on the node kind; the symlink and regular-file copies may return the
exclusion veto, in which case nothing is appended for this source. -/
def processSource (u : CopyUtils) (fs : FS) (fuel : Nat) (ctx : FPath)
    (uid gid : Int) (chmodv : Nat) (useDefaultChmod : Bool) (cwd dest : String)
    (src : FPath) : Except CopyErr (List GoPath × List CopyOp) :=
  match lstatFS fs fuel (ctx ++ src) with
  | .error e => .error (CopyErr.wrap "could not copy source" (CopyErr.osErr e))
  | .ok fi =>
    match u.destinationFilepath (ctx ++ src) fi.isDir dest cwd with
    | .error e => .error (CopyErr.wrap "find destination path" e)
    | .ok destGo =>
      match resolveIfSymlink fs fuel destGo with
      | .error e => .error (CopyErr.wrap "resolving dest symlink" e)
      | .ok destPath =>
        match fi with
        | FNode.dir =>
          match u.copyDir (ctx ++ src) destPath ctx uid gid chmodv useDefaultChmod with
          | .error e => .error (CopyErr.wrap "copying dir" e)
          | .ok copied => .ok (copied, [CopyOp.copiedDir (ctx ++ src) destPath])
        | FNode.symlink _ =>
          match u.copySymlink (ctx ++ src) destPath ctx with
          | .error e => .error (CopyErr.wrap "copying symlink" e)
          | .ok exclude =>
            .ok (if exclude then [] else [destPath], [CopyOp.copiedSymlink (ctx ++ src) destPath])
        | FNode.file =>
          match u.copyFile (ctx ++ src) destPath ctx uid gid chmodv useDefaultChmod with
          | .error e => .error (CopyErr.wrap "copying file" e)
          | .ok exclude =>
            .ok (if exclude then [] else [destPath], [CopyOp.copiedFile (ctx ++ src) destPath])

/-- The pattern-source loop: each source in order, short-circuiting on
the first error, concatenating appended paths and operation traces. -/
def processSources (u : CopyUtils) (fs : FS) (fuel : Nat) (ctx : FPath)
    (uid gid : Int) (chmodv : Nat) (useDefaultChmod : Bool) (cwd dest : String) :
    List FPath → Except CopyErr (List GoPath × List CopyOp)
  | [] => .ok ([], [])
  | src :: rest =>
    match processSource u fs fuel ctx uid gid chmodv useDefaultChmod cwd dest src with
    | .error e => .error e
    | .ok (files1, ops1) =>
      match processSources u fs fuel ctx uid gid chmodv useDefaultChmod cwd dest rest with
      | .error e => .error e
      | .ok (files2, ops2) => .ok (files1 ++ files2, ops1 ++ ops2)

/-- Per-heredoc body of the heredoc loop (`copy.go` lines 144-161):
compute the destination with `DestinationFilepath` and write the
literal data there with `CreateFile`; the destination is used exactly
as computed — this loop has no `resolveIfSymlink` call and no veto
path, and always appends the destination. -/
def processHeredoc (u : CopyUtils) (ctx : FPath) (uid gid : Int) (chmodv : Nat)
    (cwd dest : String) (sc : SourceContent) :
    Except CopyErr (List GoPath × List CopyOp) :=
  match u.destinationFilepath (ctx ++ sc.path) false dest cwd with
  | .error e => .error (CopyErr.wrap "find destination path" e)
  | .ok destPath =>
    match u.createFile destPath sc.data chmodv (uint32Of uid) (uint32Of gid) with
    | .error e => .error (CopyErr.wrap "creating file" e)
    | .ok _ => .ok ([destPath], [CopyOp.createdFile destPath sc.data])

/-- The heredoc loop over all inline sources. -/
def processHeredocs (u : CopyUtils) (ctx : FPath) (uid gid : Int) (chmodv : Nat)
    (cwd dest : String) : List SourceContent → Except CopyErr (List GoPath × List CopyOp)
  | [] => .ok ([], [])
  | sc :: rest =>
    match processHeredoc u ctx uid gid chmodv cwd dest sc with
    | .error e => .error e
    | .ok (files1, ops1) =>
      match processHeredocs u ctx uid gid chmodv cwd dest rest with
      | .error e => .error e
      | .ok (files2, ops2) => .ok (files1 ++ files2, ops1 ++ ops2)

/-- Mutable state of a `CopyCommand` value: the instruction, the file
context (overwritten by the `from` branch), and the accumulated
`snapshotFiles`. -/
structure CopyCommandS where
  cmd : CopyCmd
  fileContext : FPath
  snapshotFiles : List GoPath
deriving DecidableEq

/-- File-context selection at the top of `ExecuteCommand` (line 55):
a `from` stage replaces the context root by the inter-stage
dependencies directory for that stage. -/
def copyFileContextOf (c : CopyCommandS) : FPath :=
  if c.cmd.fromStage ≠ "" then interStageDepsDir ++ [c.cmd.fromStage]
  else c.fileContext

/-- Body of `CopyCommand.ExecuteCommand` after the file context is
fixed: ownership, source/destination expansion, chmod, the
pattern-source loop, then the heredoc loop.  The working directory
(identical in every loop iteration of the source) is computed once. -/
def executeCopyCore (u : CopyUtils) (copyAsRoot : Bool) (fs : FS) (fuel : Nat)
    (cmd : CopyCmd) (fileContext : FPath) (cfg : ImageConfig)
    (replacementEnvsOf : List String → List String) :
    Except CopyErr (List GoPath × List CopyOp) :=
  let replacementEnvs := replacementEnvsOf cfg.env
  match resolveCopyOwnership u copyAsRoot cmd.fromStage cfg.user cmd.chown replacementEnvs with
  | .error e => .error e
  | .ok (uid, gid) =>
    match u.resolveEnvAndWildcards cmd.sourcesAndDest fileContext replacementEnvs with
    | .error e => .error (CopyErr.wrap "resolving src" e)
    | .ok (srcs, dest) =>
      match u.getChmod cmd.chmod replacementEnvs with
      | .error e => .error (CopyErr.wrap "getting permissions from chmod" e)
      | .ok (chmodv, useDefaultChmod) =>
        let cwd := if cfg.workingDir = "" then rootDirString else cfg.workingDir
        match processSources u fs fuel fileContext uid gid chmodv useDefaultChmod cwd dest srcs with
        | .error e => .error e
        | .ok (files, ops) =>
          match processHeredocs u fileContext uid gid chmodv cwd dest cmd.sourceContents with
          | .error e => .error e
          | .ok (hfiles, hops) => .ok (files ++ hfiles, ops ++ hops)

/-- Model of `CopyCommand.ExecuteCommand` (`copy.go` lines 49-164): run
the core and append the produced destination paths to the receiver's
`snapshotFiles`; errors leave the receiver unchanged. -/
def executeCopy (u : CopyUtils) (copyAsRoot : Bool) (fs : FS) (fuel : Nat)
    (c : CopyCommandS) (cfg : ImageConfig)
    (replacementEnvsOf : List String → List String) :
    Except CopyErr (CopyCommandS × List CopyOp) :=
  match executeCopyCore u copyAsRoot fs fuel c.cmd (copyFileContextOf c) cfg replacementEnvsOf with
  | .error e => .error e
  | .ok (files, ops) =>
    .ok (⟨c.cmd, copyFileContextOf c, c.snapshotFiles ++ files⟩, ops)

/-- Model of `CopyCommand.FilesToSnapshot`. -/
def filesToSnapshot (c : CopyCommandS) : List GoPath := c.snapshotFiles

/-- C8: ownership resolution branches exactly on the instruction's
`from` field.  With a non-empty `from`, the chown spec is resolved by
`getUserGroup` against the replacement environment only — neither the
image's configured user nor the force-root policy flag can influence
the result.  With an empty `from`, it is resolved by
`getActiveUserGroup` against the image's configured default user,
which is replaced by `0:0` before resolution when the
`FF_KANIKO_COPY_AS_ROOT` policy flag is enabled. -/
theorem copy_ownership_branch (u : CopyUtils) (copyAsRoot : Bool)
    (fromStage user : String) (chown : Option String) (envs : List String) :
    (fromStage ≠ "" →
      resolveCopyOwnership u copyAsRoot fromStage user chown envs
        = (match u.getUserGroup chown envs with
           | .error e => .error (CopyErr.wrap "getting user group from chown" e)
           | .ok ug => .ok ug)
      ∧ ∀ copyAsRoot2 user2,
          resolveCopyOwnership u copyAsRoot fromStage user chown envs
            = resolveCopyOwnership u copyAsRoot2 fromStage user2 chown envs)
    ∧ (fromStage = "" → copyAsRoot = true →
      resolveCopyOwnership u copyAsRoot fromStage user chown envs
        = (match u.getActiveUserGroup "0:0" chown envs with
           | .error e => .error (CopyErr.wrap "getting user group from chown" e)
           | .ok ug => .ok ug))
    ∧ (fromStage = "" → copyAsRoot = false →
      resolveCopyOwnership u copyAsRoot fromStage user chown envs
        = (match u.getActiveUserGroup user chown envs with
           | .error e => .error (CopyErr.wrap "getting user group from chown" e)
           | .ok ug => .ok ug)) := by
  refine ⟨?_, ?_, ?_⟩
  · intro h
    constructor
    · simp only [resolveCopyOwnership, if_pos h]
    · intro copyAsRoot2 user2
      simp only [resolveCopyOwnership, if_pos h]
  · rintro rfl rfl
    simp [resolveCopyOwnership]
  · rintro rfl rfl
    simp [resolveCopyOwnership]

/-- Concrete utilities for the witnesses: every external call succeeds,
the destination is the source path marked absolute, copies are not
vetoed, and the two ownership resolvers return distinguishable pairs. -/
def uW : CopyUtils where
  getUserGroup := fun _ _ => .ok (7, 7)
  getActiveUserGroup := fun user _ _ => if user = "0:0" then .ok (0, 0) else .ok (1, 1)
  resolveEnvAndWildcards := fun _ _ _ => .ok ([], "/out")
  getChmod := fun _ _ => .ok (420, true)
  destinationFilepath := fun fullPath _ _ _ => .ok ⟨true, fullPath⟩
  copyDir := fun _ d _ _ _ _ _ => .ok [d]
  copySymlink := fun _ _ _ => .ok false
  copyFile := fun _ _ _ _ _ _ _ => .ok false
  createFile := fun _ _ _ _ _ => .ok ()

/-- C8 witness: the three branches evaluated at concrete inputs.  The
`from` branch ignores both the user and the policy flag; the rootless
branch resolves against the configured user; the flagged branch
resolves against `0:0`. -/
theorem copy_ownership_branch_witness :
    resolveCopyOwnership uW true "stage1" "u" none [] = .ok (7, 7)
      ∧ resolveCopyOwnership uW true "" "u" none [] = .ok (0, 0)
      ∧ resolveCopyOwnership uW false "" "u" none [] = .ok (1, 1) := by
  refine ⟨?_, ?_, ?_⟩
  · rw [((copy_ownership_branch uW true "stage1" "u" none []).1 (by decide)).1]; rfl
  · rw [(copy_ownership_branch uW true "" "u" none []).2.1 rfl rfl]; rfl
  · rw [(copy_ownership_branch uW false "" "u" none []).2.2 rfl rfl]; rfl

/-- C9: in the per-source dispatch, a symlink or regular-file source
whose low-level copy signals the exclusion veto is skipped — its
resolved destination is not appended — while a successful non-vetoed
copy appends exactly that destination; a heredoc source is always
materialized from its literal data by `createFile` and its destination
is always appended, with no veto path. -/
theorem copy_veto_skip_heredoc_append (u : CopyUtils) (fs : FS) (fuel : Nat)
    (ctx : FPath) (uid gid : Int) (chmodv : Nat) (useDefaultChmod : Bool)
    (cwd dest : String) :
    (∀ src t gp rp ex,
      lstatFS fs fuel (ctx ++ src) = .ok (FNode.symlink t) →
      u.destinationFilepath (ctx ++ src) false dest cwd = .ok gp →
      resolveIfSymlink fs fuel gp = .ok rp →
      u.copySymlink (ctx ++ src) rp ctx = .ok ex →
      processSource u fs fuel ctx uid gid chmodv useDefaultChmod cwd dest src
        = .ok (if ex then [] else [rp], [CopyOp.copiedSymlink (ctx ++ src) rp]))
    ∧ (∀ src gp rp ex,
      lstatFS fs fuel (ctx ++ src) = .ok FNode.file →
      u.destinationFilepath (ctx ++ src) false dest cwd = .ok gp →
      resolveIfSymlink fs fuel gp = .ok rp →
      u.copyFile (ctx ++ src) rp ctx uid gid chmodv useDefaultChmod = .ok ex →
      processSource u fs fuel ctx uid gid chmodv useDefaultChmod cwd dest src
        = .ok (if ex then [] else [rp], [CopyOp.copiedFile (ctx ++ src) rp]))
    ∧ (∀ sc gp,
      u.destinationFilepath (ctx ++ sc.path) false dest cwd = .ok gp →
      u.createFile gp sc.data chmodv (uint32Of uid) (uint32Of gid) = .ok () →
      processHeredoc u ctx uid gid chmodv cwd dest sc
        = .ok ([gp], [CopyOp.createdFile gp sc.data])) := by
  refine ⟨?_, ?_, ?_⟩
  · intro src t gp rp ex hstat hdest hres hcopy
    simp only [processSource, hstat, FNode.isDir, hdest, hres, hcopy]
  · intro src gp rp ex hstat hdest hres hcopy
    simp only [processSource, hstat, FNode.isDir, hdest, hres, hcopy]
  · intro sc gp hdest hcreate
    simp only [processHeredoc, hdest, hcreate]

/-- Concrete utilities for the C9 witness: identical to `uW` except the
symlink copy signals the exclusion veto. -/
def uW9 : CopyUtils := { uW with copySymlink := fun _ _ _ => .ok true }

/-- Concrete filesystem for the C9 witness: a symlink source `/s`
pointing at the directory `/t`, and a regular-file source `/f`. -/
def fsW9 : FS := [(["s"], FNode.symlink ["t"]), (["t"], FNode.dir), (["f"], FNode.file)]

/-- C9 witness: the vetoed symlink source appends nothing, the
non-vetoed file source appends its destination, and the heredoc source
always appends its destination. -/
theorem copy_veto_skip_heredoc_append_witness :
    processSource uW9 fsW9 4 [] 0 0 420 true "/" "/out" ["s"]
        = .ok ([], [CopyOp.copiedSymlink ["s"] ⟨true, ["t"]⟩])
      ∧ processSource uW9 fsW9 4 [] 0 0 420 true "/" "/out" ["f"]
        = .ok ([⟨true, ["f"]⟩], [CopyOp.copiedFile ["f"] ⟨true, ["f"]⟩])
      ∧ processHeredoc uW9 [] 0 0 420 "/" "/out" ⟨["hd"], "payload"⟩
        = .ok ([⟨true, ["hd"]⟩], [CopyOp.createdFile ⟨true, ["hd"]⟩ "payload"]) := by
  refine ⟨?_, ?_, ?_⟩
  · have h := (copy_veto_skip_heredoc_append uW9 fsW9 4 [] 0 0 420 true "/" "/out").1
      ["s"] ["t"] ⟨true, ["s"]⟩ ⟨true, ["t"]⟩ true
      (by decide) (by decide) (by decide) (by decide)
    simpa using h
  · have h := (copy_veto_skip_heredoc_append uW9 fsW9 4 [] 0 0 420 true "/" "/out").2.1
      ["f"] ⟨true, ["f"]⟩ ⟨true, ["f"]⟩ false
      (by decide) (by decide) (by decide) (by decide)
    simpa using h
  · have h := (copy_veto_skip_heredoc_append uW9 fsW9 4 [] 0 0 420 true "/" "/out").2.2
      ⟨["hd"], "payload"⟩ ⟨true, ["hd"]⟩ (by decide) (by decide)
    simpa using h

/-- C10: unlike pattern-based sources, heredoc destinations are never
passed through the symlink-safe resolver.  When the instruction expands
to no pattern sources, the whole execution is independent of the
filesystem: each heredoc file is written at the literal destination
computed by `DestinationFilepath`, so a heredoc destination beneath a
symlinked ancestor directory is written at the unresolved path. -/
theorem heredoc_dest_bypasses_resolver (u : CopyUtils) (copyAsRoot : Bool)
    (fuel : Nat) (c : CopyCommandS) (cfg : ImageConfig)
    (replacementEnvsOf : List String → List String) (fs fs2 : FS)
    (hsrc : ∀ r, u.resolveEnvAndWildcards c.cmd.sourcesAndDest (copyFileContextOf c)
        (replacementEnvsOf cfg.env) = .ok r → r.1 = []) :
    executeCopy u copyAsRoot fs fuel c cfg replacementEnvsOf
      = executeCopy u copyAsRoot fs2 fuel c cfg replacementEnvsOf := by
  simp only [executeCopy, executeCopyCore]
  cases hro : resolveCopyOwnership u copyAsRoot c.cmd.fromStage cfg.user c.cmd.chown
      (replacementEnvsOf cfg.env) with
  | error e => rfl
  | ok ug =>
    obtain ⟨uid, gid⟩ := ug
    cases hrw : u.resolveEnvAndWildcards c.cmd.sourcesAndDest (copyFileContextOf c)
        (replacementEnvsOf cfg.env) with
    | error e => rfl
    | ok r =>
      obtain ⟨srcs, dest⟩ := r
      have hsrcs : srcs = [] := hsrc (srcs, dest) hrw
      subst hsrcs
      cases hchm : u.getChmod c.cmd.chmod (replacementEnvsOf cfg.env) with
      | error e => rfl
      | ok cm =>
        obtain ⟨chmodv, udc⟩ := cm
        simp [processSources]

/-- Concrete utilities for the C10 witness: like `uW` but every
destination computes to the fixed literal path `/lnk/file`. -/
def uW10 : CopyUtils :=
  { uW with destinationFilepath := fun _ _ _ _ => .ok ⟨true, ["lnk", "file"]⟩ }

/-- Concrete filesystem for the C10 witness: `/lnk` is a symlink to the
real directory `/real`. -/
def fsW10 : FS := [(["lnk"], FNode.symlink ["real"]), (["real"], FNode.dir)]

/-- Heredoc-only instruction for the C10 and C5 witnesses. -/
def cmdW : CopyCmd :=
  { sourcesAndDest := ["/lnk/file"]
  , sourceContents := [⟨["hd"], "payload"⟩]
  , fromStage := ""
  , chown := none
  , chmod := none }

/-- Command state for the C10 witness. -/
def cW10 : CopyCommandS := { cmd := cmdW, fileContext := [], snapshotFiles := [] }

/-- Image configuration for the witnesses. -/
def cfgW : ImageConfig := { env := [], user := "root", workingDir := "" }

/-- C10 witness: against the filesystem with the symlinked ancestor
`/lnk`, execution writes the heredoc at the literal `/lnk/file` (and is
identical to execution against the empty filesystem), even though the
resolver would have redirected that destination to `/real/file`. -/
theorem heredoc_dest_bypasses_resolver_witness :
    (executeCopy uW10 false [] 4 cW10 cfgW id
        = executeCopy uW10 false fsW10 4 cW10 cfgW id)
      ∧ executeCopy uW10 false fsW10 4 cW10 cfgW id
        = .ok (⟨cmdW, [], [⟨true, ["lnk", "file"]⟩]⟩,
               [CopyOp.createdFile ⟨true, ["lnk", "file"]⟩ "payload"])
      ∧ resolveIfSymlink fsW10 4 ⟨true, ["lnk", "file"]⟩ = .ok ⟨true, ["real", "file"]⟩
      ∧ (⟨true, ["lnk", "file"]⟩ : GoPath) ≠ ⟨true, ["real", "file"]⟩ := by
  refine ⟨?_, by decide, by decide, by decide⟩
  exact heredoc_dest_bypasses_resolver uW10 false 4 cW10 cfgW id [] fsW10
    (by intro r h; injection h with h2; rw [← h2])

/-- C5: executing the copy step twice with identical inputs against the
same initial filesystem appends the same batch of destination paths
each time, so the snapshot path set reported by `FilesToSnapshot` after
the second execution equals the set reported after the first, and the
operation traces of the two runs are identical. -/
theorem executeCopy_idempotent (u : CopyUtils) (copyAsRoot : Bool) (fs : FS)
    (fuel : Nat) (c0 c1 c2 : CopyCommandS) (cfg : ImageConfig)
    (replacementEnvsOf : List String → List String) (ops1 ops2 : List CopyOp)
    (h0 : c0.snapshotFiles = [])
    (h1 : executeCopy u copyAsRoot fs fuel c0 cfg replacementEnvsOf = .ok (c1, ops1))
    (h2 : executeCopy u copyAsRoot fs fuel c1 cfg replacementEnvsOf = .ok (c2, ops2)) :
    (filesToSnapshot c2).toFinset = (filesToSnapshot c1).toFinset ∧ ops2 = ops1 := by
  simp only [executeCopy] at h1 h2
  cases hcore : executeCopyCore u copyAsRoot fs fuel c0.cmd (copyFileContextOf c0) cfg
      replacementEnvsOf with
  | error e =>
    rw [hcore] at h1
    cases h1
  | ok out =>
    obtain ⟨files, ops⟩ := out
    simp only [hcore] at h1
    injection h1 with h1p
    injection h1p with hc1 hops1
    have hc1cmd : c1.cmd = c0.cmd := by rw [← hc1]
    have hc1fc : c1.fileContext = copyFileContextOf c0 := by rw [← hc1]
    have hc1snap : c1.snapshotFiles = c0.snapshotFiles ++ files := by rw [← hc1]
    have hctx : copyFileContextOf c1 = copyFileContextOf c0 := by
      rw [copyFileContextOf, copyFileContextOf, hc1cmd, hc1fc]
      by_cases hfrom : c0.cmd.fromStage ≠ ""
      · simp only [if_pos hfrom]
      · simp only [if_neg hfrom, copyFileContextOf, if_neg hfrom]
    rw [hc1cmd, hctx] at h2
    simp only [hcore] at h2
    injection h2 with h2p
    injection h2p with hc2 hops2
    have hc2snap : c2.snapshotFiles = c1.snapshotFiles ++ files := by rw [← hc2]
    constructor
    · rw [filesToSnapshot, filesToSnapshot, hc2snap, hc1snap, h0, List.nil_append,
        List.toFinset_append, Finset.union_self]
    · rw [← hops2, ← hops1]

/-- Command state for the C5 witness (fresh command, empty snapshot
list, one heredoc source). -/
def cW5 : CopyCommandS := { cmd := cmdW, fileContext := [], snapshotFiles := [] }

/-- Result state of the first C5 witness run. -/
def cW5a : CopyCommandS :=
  { cmd := cmdW, fileContext := [], snapshotFiles := [⟨true, ["hd"]⟩] }

/-- Result state of the second C5 witness run. -/
def cW5b : CopyCommandS :=
  { cmd := cmdW, fileContext := []
  , snapshotFiles := [⟨true, ["hd"]⟩, ⟨true, ["hd"]⟩] }

/-- C5 witness: both runs append the heredoc destination `/hd`; the
snapshot path set after the second run equals the set after the first,
and the traces coincide. -/
theorem executeCopy_idempotent_witness :
    (filesToSnapshot cW5b).toFinset = (filesToSnapshot cW5a).toFinset
      ∧ [CopyOp.createdFile (⟨true, ["hd"]⟩ : GoPath) "payload"]
        = [CopyOp.createdFile (⟨true, ["hd"]⟩ : GoPath) "payload"] :=
  executeCopy_idempotent uW false [] 4 cW5 cW5a cW5b cfgW id
    [CopyOp.createdFile ⟨true, ["hd"]⟩ "payload"]
    [CopyOp.createdFile ⟨true, ["hd"]⟩ "payload"]
    rfl (by decide) (by decide)

/-- Errors of the cache-substitution executor
(`CachingCopyCommand.ExecuteCommand`). -/
inductive CacheErr
  | nilImage (desc : String)
  | layersErr (msg : String)
  | wrongLayerCount (expected got : Nat)
  | extractErr (msg : String)
deriving DecidableEq

/-- An image layer, identified opaquely. -/
structure Layer where
  id : Nat
deriving DecidableEq

/-- The slice of a `v1.Image` the executor uses: its layer list, whose
retrieval may itself fail. -/
structure ImageModel where
  layers : Except String (List Layer)
deriving DecidableEq

/-- State of a `CachingCopyCommand` value: the (possibly nil) cached
image, the recorded extracted-files set, the cached layer slot, and the
command description used in the nil-image error. -/
structure CachingCopyCommandS where
  img : Option ImageModel
  extractedFiles : List GoPath
  layer : Option Layer
  cmdString : String
deriving DecidableEq

/-- Model of `CachingCopyCommand.ExecuteCommand` (`copy.go` lines
216-242).  `getFSFromLayers` is the external extraction; like the Go
multiple-assignment `cr.extractedFiles, err = util.GetFSFromLayers(...)`
it yields both a file list and an optional error, and the receiver's
`extractedFiles` field is written before the error is inspected.  The
result is the updated receiver together with the returned error, `none`
meaning success. -/
def cachingExecuteCommand (getFSFromLayers : List Layer → List GoPath × Option String)
    (cr : CachingCopyCommandS) : CachingCopyCommandS × Option CacheErr :=
  match cr.img with
  | none => (cr, some (CacheErr.nilImage cr.cmdString))
  | some img =>
    match img.layers with
    | .error e => (cr, some (CacheErr.layersErr e))
    | .ok layers =>
      if layers.length ≠ 1 then (cr, some (CacheErr.wrongLayerCount 1 layers.length))
      else
        let cr2 := { cr with layer := layers.head? }
        let res := getFSFromLayers layers
        let cr3 := { cr2 with extractedFiles := res.1 }
        match res.2 with
        | some e => (cr3, some (CacheErr.extractErr e))
        | none => (cr3, none)

/-- Model of `CachingCopyCommand.FilesToSnapshot`. -/
def cachingFilesToSnapshot (cr : CachingCopyCommandS) : List GoPath :=
  cr.extractedFiles

/-- C2: the cache-substitution executor fails whenever the cached image
is nil, whenever the layer list cannot be retrieved, and whenever the
layer count differs from one; in each of these cases the receiver is
returned unchanged — in particular no extraction is recorded and the
extracted-files set stays exactly as it was (empty on a fresh command).
The extraction function is universally quantified and absent from every
error conclusion, so no extraction is performed in those cases. -/
theorem cachingCopy_error_cases (getFSFromLayers : List Layer → List GoPath × Option String)
    (cr : CachingCopyCommandS) :
    (cr.img = none →
      cachingExecuteCommand getFSFromLayers cr
        = (cr, some (CacheErr.nilImage cr.cmdString)))
    ∧ (∀ img e, cr.img = some img → img.layers = .error e →
      cachingExecuteCommand getFSFromLayers cr = (cr, some (CacheErr.layersErr e)))
    ∧ (∀ img layers, cr.img = some img → img.layers = .ok layers → layers.length ≠ 1 →
      cachingExecuteCommand getFSFromLayers cr
        = (cr, some (CacheErr.wrongLayerCount 1 layers.length))) := by
  refine ⟨?_, ?_, ?_⟩
  · intro h
    simp only [cachingExecuteCommand, h]
  · intro img e himg hlay
    simp only [cachingExecuteCommand, himg, hlay]
  · intro img layers himg hlay hlen
    simp only [cachingExecuteCommand, himg, hlay, if_pos hlen]

/-- C2 witness: a nil image, an image whose layer list fails to load,
and an image with two layers all fail with the receiver unchanged. -/
theorem cachingCopy_error_cases_witness :
    cachingExecuteCommand (fun _ => ([], none)) ⟨none, [], none, "COPY a b"⟩
        = (⟨none, [], none, "COPY a b"⟩, some (CacheErr.nilImage "COPY a b"))
      ∧ cachingExecuteCommand (fun _ => ([], none)) ⟨some ⟨.error "boom"⟩, [], none, "c"⟩
        = (⟨some ⟨.error "boom"⟩, [], none, "c"⟩, some (CacheErr.layersErr "boom"))
      ∧ cachingExecuteCommand (fun _ => ([], none)) ⟨some ⟨.ok [⟨1⟩, ⟨2⟩]⟩, [], none, "c"⟩
        = (⟨some ⟨.ok [⟨1⟩, ⟨2⟩]⟩, [], none, "c"⟩, some (CacheErr.wrongLayerCount 1 2)) := by
  refine ⟨?_, ?_, ?_⟩
  · exact (cachingCopy_error_cases (fun _ => ([], none)) _).1 rfl
  · exact (cachingCopy_error_cases (fun _ => ([], none)) _).2.1 ⟨.error "boom"⟩ "boom" rfl rfl
  · exact (cachingCopy_error_cases (fun _ => ([], none)) _).2.2 ⟨.ok [⟨1⟩, ⟨2⟩]⟩ [⟨1⟩, ⟨2⟩]
      rfl rfl (by decide)

/-- A cache entry for a warmed image (`WarmEntry` of the design): the
local on-disk path is keyed by the reference, and the fetch timestamp
drives the freshness comparison. -/
structure WarmEntry where
  fetchedAt : Nat
deriving DecidableEq

/-- Local cache store of the warmer, keyed by the image reference. -/
structure WarmState where
  entries : List (String × WarmEntry)
deriving DecidableEq

/-- Warm options: the freshness window (`CacheTTL`). -/
structure WarmerOptions where
  cacheTTL : Nat
deriving DecidableEq

/-- Errors of the warmer; `alreadyCached` is the sentinel condition. -/
inductive WarmErr
  | alreadyCached
  | fetchFailed (msg : String)
deriving DecidableEq

/-- Model of the `IsAlreadyCached` predicate. -/
def IsAlreadyCached : WarmErr → Bool
  | .alreadyCached => true
  | _ => false

/-- Entry lookup in an association list of cache entries. -/
def lookupEntryList : List (String × WarmEntry) → String → Option WarmEntry
  | [], _ => none
  | (k, v) :: rest, ref => if k = ref then some v else lookupEntryList rest ref

/-- Entry lookup in the cache store. -/
def lookupEntry (st : WarmState) (ref : String) : Option WarmEntry :=
  lookupEntryList st.entries ref

/-- Modelled from the spec: the `Warmer.Warm` implementation is not part
of the sources (only its tests are), so this definition follows §4.4 of
the design word for word.  Query the local store for the reference; if
absent, fetch via the remote client and persist under the reference's
key with the current timestamp; if present and still within the
freshness window, return the `alreadyCached` sentinel without
re-fetching; if present but expired, re-fetch and wholly replace the
stale entry, identically to the absent case. -/
def warm (remote : String → Except String String) (now : Nat) (st : WarmState)
    (ref : String) (opts : WarmerOptions) : WarmState × Except WarmErr String :=
  let fetchAndStore : WarmState × Except WarmErr String :=
    match remote ref with
    | .error e => (st, .error (WarmErr.fetchFailed e))
    | .ok localPath =>
      (⟨(ref, ⟨now⟩) :: st.entries.filter (fun p => p.1 ≠ ref)⟩, .ok localPath)
  match lookupEntry st ref with
  | none => fetchAndStore
  | some entry =>
    if now < entry.fetchedAt + opts.cacheTTL then (st, .error WarmErr.alreadyCached)
    else fetchAndStore

/-- Looking a reference up after filtering it out finds nothing. -/
theorem lookupEntryList_filter_ne (ref : String) :
    ∀ entries : List (String × WarmEntry),
    lookupEntryList (entries.filter (fun p => p.1 ≠ ref)) ref = none := by
  intro entries
  induction entries with
  | nil => rfl
  | cons kv rest ih =>
    obtain ⟨k, v⟩ := kv
    by_cases hk : k = ref
    · rw [List.filter_cons, if_neg (by simp [hk])]
      exact ih
    · rw [List.filter_cons, if_pos (by simp [hk])]
      simp only [lookupEntryList, if_neg hk]
      exact ih

/-- Filtering a key out twice is the same as filtering it once. -/
theorem filter_ne_idem (ref : String) (entries : List (String × WarmEntry)) :
    (entries.filter (fun p => p.1 ≠ ref)).filter (fun p => p.1 ≠ ref)
      = entries.filter (fun p => p.1 ≠ ref) := by
  rw [List.filter_filter]
  simp

/-- C3: the warm state machine.  (1) With no cache entry for the
reference and a succeeding remote client, `warm` returns the fetched
local path (a nil-error success).  (2) With a fresh entry, `warm`
returns the sentinel recognized by `IsAlreadyCached`, leaves the store
untouched, and its outcome is independent of the remote client — the
client is never invoked.  (3) With an expired entry and a succeeding
remote, `warm` re-fetches: its entire outcome (new store and result)
equals that of a first-time `warm` on the store with the stale entry
removed, and the result is the fetched path, not the sentinel. -/
theorem warm_state_machine (remote : String → Except String String) (now : Nat)
    (st : WarmState) (ref : String) (opts : WarmerOptions) :
    (∀ localPath, lookupEntry st ref = none → remote ref = .ok localPath →
      warm remote now st ref opts
        = (⟨(ref, ⟨now⟩) :: st.entries.filter (fun p => p.1 ≠ ref)⟩, .ok localPath))
    ∧ (∀ entry, lookupEntry st ref = some entry →
        now < entry.fetchedAt + opts.cacheTTL →
      warm remote now st ref opts = (st, .error WarmErr.alreadyCached)
        ∧ IsAlreadyCached WarmErr.alreadyCached = true
        ∧ ∀ remote2, warm remote now st ref opts = warm remote2 now st ref opts)
    ∧ (∀ entry localPath, lookupEntry st ref = some entry →
        ¬ now < entry.fetchedAt + opts.cacheTTL → remote ref = .ok localPath →
      warm remote now st ref opts
          = warm remote now ⟨st.entries.filter (fun p => p.1 ≠ ref)⟩ ref opts
        ∧ (warm remote now st ref opts).2 = .ok localPath) := by
  refine ⟨?_, ?_, ?_⟩
  · intro localPath hnone hrem
    simp only [warm, hnone, hrem]
  · intro entry hsome hfresh
    refine ⟨?_, rfl, ?_⟩
    · simp only [warm, hsome, if_pos hfresh]
    · intro remote2
      simp only [warm, hsome, if_pos hfresh]
  · intro entry localPath hsome hexp hrem
    have hlook2 : lookupEntry ⟨st.entries.filter (fun p => p.1 ≠ ref)⟩ ref = none :=
      lookupEntryList_filter_ne ref st.entries
    constructor
    · simp only [warm, hsome, if_neg hexp, hlook2, hrem, filter_ne_idem]
    · simp only [warm, hsome, if_neg hexp, hrem]

/-- Remote client for the C3 witness. -/
def remoteW : String → Except String String :=
  fun ref => .ok ("/cache/" ++ ref)

/-- C3 witness, covering the three transitions of the state machine on
the reference `foo:latest` with a freshness window of 10: a first-time
fetch succeeds; an immediate second warm returns the `IsAlreadyCached`
sentinel with an outcome independent of the remote client; a warm after
the window expired re-fetches exactly like a first-time fetch. -/
theorem warm_state_machine_witness :
    warm remoteW 100 ⟨[]⟩ "foo:latest" ⟨10⟩
        = (⟨[("foo:latest", ⟨100⟩)]⟩, .ok "/cache/foo:latest")
      ∧ (warm remoteW 100 ⟨[("foo:latest", ⟨100⟩)]⟩ "foo:latest" ⟨10⟩
          = (⟨[("foo:latest", ⟨100⟩)]⟩, .error WarmErr.alreadyCached)
        ∧ IsAlreadyCached WarmErr.alreadyCached = true
        ∧ ∀ remote2, warm remoteW 100 ⟨[("foo:latest", ⟨100⟩)]⟩ "foo:latest" ⟨10⟩
            = warm remote2 100 ⟨[("foo:latest", ⟨100⟩)]⟩ "foo:latest" ⟨10⟩)
      ∧ (warm remoteW 120 ⟨[("foo:latest", ⟨100⟩)]⟩ "foo:latest" ⟨10⟩
          = warm remoteW 120 ⟨[]⟩ "foo:latest" ⟨10⟩
        ∧ (warm remoteW 120 ⟨[("foo:latest", ⟨100⟩)]⟩ "foo:latest" ⟨10⟩).2
          = .ok "/cache/foo:latest") := by
  refine ⟨?_, ?_, ?_⟩
  · exact (warm_state_machine remoteW 100 ⟨[]⟩ "foo:latest" ⟨10⟩).1
      "/cache/foo:latest" rfl rfl
  · exact (warm_state_machine remoteW 100 ⟨[("foo:latest", ⟨100⟩)]⟩ "foo:latest" ⟨10⟩).2.1
      ⟨100⟩ (by decide) (by decide)
  · have h := (warm_state_machine remoteW 120 ⟨[("foo:latest", ⟨100⟩)]⟩ "foo:latest" ⟨10⟩).2.2
      ⟨100⟩ "/cache/foo:latest" (by decide) (by decide) rfl
    have hfilt : ([("foo:latest", (⟨100⟩ : WarmEntry))].filter
        (fun p => p.1 ≠ "foo:latest")) = [] := by decide
    rw [hfilt] at h
    exact h

/-- A piece of a `FROM` reference template: literal text or a build-arg
occurrence (`$NAME`). -/
inductive RefPart
  | lit (s : String)
  | var (name : String)
deriving DecidableEq

/-- One build stage as the external parser reports it: the `FROM`
target template and the optional `as` stage name. -/
structure DStage where
  fromRef : List RefPart
  stageName : Option String
deriving DecidableEq

/-- A parsed Dockerfile as the scanner consumes it (§6: the parser
supplies the instruction sequence — stage names, base-image references,
`ARG` defaults). -/
structure DFile where
  argDecls : List (String × Option String)
  stages : List DStage
deriving DecidableEq

/-- ASCII lower-casing of a character code, for case-insensitive
name comparison. -/
def lowerCode (n : Nat) : Nat := if 65 ≤ n ∧ n ≤ 90 then n + 32 else n

/-- Case-insensitive string equality (ASCII letter case folded). -/
def eqCI (a b : String) : Bool :=
  a.data.map (fun c => lowerCode c.toNat) == b.data.map (fun c => lowerCode c.toNat)

/-- Modelled from the spec: the build-arg override lookup of the
scanner (`ParseDockerfile` is not part of the sources, only its tests
are).  The spec's testable property declares the argument-name match
case-insensitive, so the override key is compared to the declared name
up to letter case. -/
def lookupOverrideCI (overrides : List (String × String)) (name : String) : Option String :=
  match overrides with
  | [] => none
  | (k, v) :: rest =>
    if eqCI k name then some v else lookupOverrideCI rest name

/-- Declared `ARG` default lookup. -/
def lookupArgDefault (decls : List (String × Option String)) (name : String) :
    Option String :=
  match decls with
  | [] => none
  | (k, d) :: rest => if k = name then d else lookupArgDefault rest name

/-- Modelled from the spec: the value substituted for `$NAME` — the
build-arg override when its name matches, otherwise the declared
default, otherwise empty. -/
def argValue (decls : List (String × Option String))
    (overrides : List (String × String)) (name : String) : String :=
  match lookupOverrideCI overrides name with
  | some v => v
  | none =>
    match lookupArgDefault decls name with
    | some d => d
    | none => ""

/-- Substitute build arguments into a `FROM` reference template. -/
def substRef (decls : List (String × Option String))
    (overrides : List (String × String)) : List RefPart → String
  | [] => ""
  | RefPart.lit s :: rest => s ++ substRef decls overrides rest
  | RefPart.var n :: rest => argValue decls overrides n ++ substRef decls overrides rest

/-- Modelled from the spec: scan the stages in order, substituting
build arguments into each `FROM` target; a stage whose target names a
prior stage (stage names match case-insensitively) is not a base image
and is excluded. -/
def scanStages (decls : List (String × Option String))
    (overrides : List (String × String)) :
    List String → List DStage → List String
  | _, [] => []
  | stageNames, st :: rest =>
    let r := substRef decls overrides st.fromRef
    let stageNames2 := match st.stageName with
      | some nm => stageNames ++ [nm]
      | none => stageNames
    let restOut := scanStages decls overrides stageNames2 rest
    if stageNames.any (fun nm => eqCI nm r) then restOut
    else r :: restOut

/-- Modelled from the spec: `scanBaseImages` (§4.5) — every externally
resolvable `FROM` reference across all stages, in source order, with
build-argument substitution applied. -/
def scanBaseImages (df : DFile) (overrides : List (String × String)) : List String :=
  scanStages df.argDecls overrides [] df.stages

/-- The Dockerfile of `TestParseDockerfile_ArgsDockerfile`:
`ARG NGINX_VERSION=1.29.1` and `FROM nginx:$NGINX_VERSION-alpine-slim`. -/
def argsDockerfile : DFile :=
  { argDecls := [("NGINX_VERSION", some "1.29.1")]
  , stages := [{ fromRef := [RefPart.lit "nginx:", RefPart.var "NGINX_VERSION",
                             RefPart.lit "-alpine-slim"]
               , stageName := none }] }

/-- C4 counterexample: with the build-arg override `version=1.20` the
scan does not return `nginx:1.20-alpine-slim` — the override name
`version` does not match the declared argument `NGINX_VERSION`, even
case-insensitively, so the override is not substituted, exactly as the
in-source test (`copy.go` bundle, line 536) expects. -/
theorem scanBaseImages_args_override_counterexample :
    scanBaseImages argsDockerfile [("version", "1.20")]
      ≠ ["nginx:1.20-alpine-slim"] := by decide

/-- C4 (amended): with the override `version=1.20`, whose name matches
no declared argument, the declared default `1.29.1` is substituted
exactly once, yielding `nginx:1.29.1-alpine-slim`. -/
theorem scanBaseImages_args_override_default :
    scanBaseImages argsDockerfile [("version", "1.20")]
      = ["nginx:1.29.1-alpine-slim"] := by decide

/-- Model validation: the single-stage Dockerfile of
`TestParseDockerfile_SingleStageDockerfile` scans to `alpine:latest`. -/
theorem scanBaseImages_single_stage :
    scanBaseImages { argDecls := []
                   , stages := [{ fromRef := [RefPart.lit "alpine:latest"]
                                , stageName := none }] } []
      = ["alpine:latest"] := by decide

/-- Model validation: the two-stage Dockerfile of
`TestParseDockerfile_MultiStageDockerfile` scans to both base images in
source order. -/
theorem scanBaseImages_multi_stage :
    scanBaseImages { argDecls := []
                   , stages := [{ fromRef := [RefPart.lit "golang:1.20"]
                                , stageName := some "BUILDER" }
                               ,{ fromRef := [RefPart.lit "alpine:latest"]
                                , stageName := some "RUNNER" }] } []
      = ["golang:1.20", "alpine:latest"] := by decide

/-- Model validation: a stage whose `FROM` names a prior stage (here by
its build name, case-insensitively) is not a base image. -/
theorem scanBaseImages_prior_stage_excluded :
    scanBaseImages { argDecls := []
                   , stages := [{ fromRef := [RefPart.lit "golang:1.20"]
                                , stageName := some "BUILDER" }
                               ,{ fromRef := [RefPart.lit "builder"]
                                , stageName := none }] } []
      = ["golang:1.20"] := by decide
